import Mathlib

/-!
# Verification of the confy-cpp configuration resolution engine

Shallow embedding of the core of `confy-cpp` (files `src/Value.hpp`,
`src/Merge.cpp`, `src/DotPath.cpp`, `src/Parse.cpp`, `src/EnvMapper.cpp`,
`src/Config.cpp`) together with proofs and refutations of the specified
properties.

Modelling conventions:
* `Value` embeds `confy::Value` (= `nlohmann::json`): a tagged union of
  null / bool / int64 / double / UTF-8 string / array / object.  Objects are
  embedded as association lists with the map semantics of the C++ object
  type (unique keys; `objGet` / `objInsert` model `contains`/`operator[]`
  lookup and insert-or-assign).  None of the properties proved below depends
  on object iteration order, so the list order is irrelevant.
* C++ exceptions become `Except ConfyError`; a `catch` becomes a `match` on
  the `Except`.
* The external collaborators (the JSON text parser used by
  `Value::parse`, and `std::stod`) are not part of this repository's core;
  they are threaded through as an explicit record `Ext` of functions, and
  all theorems are proved for every possible behaviour of `Ext`.
* The process environment (read by `get_all_env_vars`) is passed in as an
  explicit snapshot `env : List (String × String)`, as the specification's
  design notes themselves prescribe for testability.
* Machine integers: `int64_t` values are embedded as `Int`; the only place
  the 64-bit range matters is `std::stoll`'s overflow check in
  `parse_value`, which is modelled by an explicit range test.
-/

namespace Confy

/-- Embeds `confy::Value` (`nlohmann::json`): null, boolean, 64-bit integer,
double, string, array, object.  Objects are association lists with unique
keys (map semantics, iteration order irrelevant to everything proved). -/
inductive Value where
  | null : Value
  | bool (b : Bool) : Value
  | int (n : Int) : Value
  | float (f : Float) : Value
  | str (s : String) : Value
  | arr (xs : List Value) : Value
  | obj (kvs : List (String × Value)) : Value

/-- Embeds `type_name` from `Value.hpp`. -/
def type_name : Value → String
  | .null => "null"
  | .bool _ => "boolean"
  | .int _ => "integer"
  | .float _ => "float"
  | .str _ => "string"
  | .arr _ => "array"
  | .obj _ => "object"

/-- Object-map lookup: models `contains(key)` / `operator[](key)` reads on
the C++ object type (first binding of the key; keys are unique). -/
def objGet : List (String × Value) → String → Option Value
  | [], _ => none
  | (k', v') :: rest, k => if k' = k then some v' else objGet rest k

/-- Object-map insert-or-assign: models `obj[key] = value` on the C++ object
type (replace the binding if the key is present, otherwise add it). -/
def objInsert : List (String × Value) → String → Value → List (String × Value)
  | [], k, v => [(k, v)]
  | (k', v') :: rest, k, v =>
      if k' = k then (k, v) :: rest else (k', v') :: objInsert rest k v

/-- Embeds the thrown exceptions relevant to the claims: `KeyError`,
`TypeError` and `MissingMandatoryConfig` from `Errors.hpp`, plus
`std::out_of_range` as thrown by `std::stoull` in `parse_array_index`
(not a `ConfigError`; it escapes the dot-path traversals uncaught).  The
`stdOutOfRange` payload records the offending segment (the C++ `what()`
text is implementation-defined). -/
inductive ConfyError where
  | keyError (path : String) (seg : String) : ConfyError
  | typeError (path : String) (expected : String) (got : String) : ConfyError
  | missingMandatory (keys : List String) : ConfyError
  | stdOutOfRange (arg : String) : ConfyError
deriving DecidableEq

mutual

/-- Embeds `deep_merge` from `Merge.cpp`: a Null incoming keeps the base, a
Null base is replaced, object/object merges recursively, anything else is
replaced by the incoming value wholesale. -/
def deep_merge : Value → Value → Value
  | base, .null => base
  | .null, ov => ov
  | .obj bkvs, .obj okvs => .obj (mergeInto bkvs okvs)
  | _, ov => ov

/-- The object/object loop of `deep_merge`: fold the incoming bindings into
a copy of the base object. -/
def mergeInto (acc : List (String × Value)) : List (String × Value) → List (String × Value)
  | [] => acc
  | (k, v) :: rest =>
      match objGet acc k with
      | some bv => mergeInto (objInsert acc k (deep_merge bv v)) rest
      | none => mergeInto (acc ++ [(k, v)]) rest

end

/-- Embeds `deep_merge_all` from `Merge.cpp`: left fold, empty input gives
an empty object. -/
def deep_merge_all : List Value → Value
  | [] => .obj []
  | s :: rest => rest.foldl deep_merge s

/-- The character loop of `split_dot_path`: accumulate the current segment,
pushing it (when nonempty) at each `.` and at the end. -/
def splitDotAux (current : List Char) : List Char → List String
  | [] => if current.isEmpty then [] else [String.mk current]
  | c :: rest =>
      if c = '.' then
        if current.isEmpty then splitDotAux [] rest
        else String.mk current :: splitDotAux [] rest
      else splitDotAux (current ++ [c]) rest

/-- Embeds `split_dot_path` from `DotPath.cpp`: split on `.`, dropping empty
segments. -/
def split_dot_path (path : String) : List String :=
  if path.data = [] then [] else splitDotAux [] path.data

/-- Embeds the helper `is_array_index` from `DotPath.cpp`: all digits, no
leading zero except `"0"` itself. -/
def is_array_index (seg : String) : Bool :=
  if seg.data = [] then false
  else if seg.data.headD ' ' = '0' && seg.data.length > 1 then false
  else seg.data.all Char.isDigit

/-- Embeds the helper `parse_array_index` (`std::stoull` on an all-digit
string): the digits value, or the `std::out_of_range` that `stoull`
throws when the value exceeds `ULLONG_MAX` (`2^64 - 1`).  None of
`get_by_dot` (either overload), `contains_dot` or `validate_mandatory`
catches that exception, so it propagates to the caller of the
traversal. -/
def parse_array_index (seg : String) : Except ConfyError Nat :=
  let n := seg.data.foldl (fun n c => n * 10 + (c.toNat - 48)) 0
  if n < 2 ^ 64 then .ok n else .error (.stdOutOfRange seg)

/-- Segment-list worker of the strict `get_by_dot` from `DotPath.cpp`.
`path` is only used in error messages, exactly as in the C++. -/
def getSegs (path : String) : Value → List String → Except ConfyError Value
  | v, [] => .ok v
  | .obj kvs, seg :: rest =>
      match objGet kvs seg with
      | some v' => getSegs path v' rest
      | none => .error (.keyError path seg)
  | .arr xs, seg :: rest =>
      if is_array_index seg then
        match parse_array_index seg with
        | .error e => .error e
        | .ok idx =>
            if h : idx < xs.length then getSegs path (xs.get ⟨idx, h⟩) rest
            else .error (.keyError path (seg ++ " (index out of range)"))
      else .error (.keyError path (seg ++ " (not a valid array index)"))
  | v, _ :: _ => .error (.typeError path "object or array" (type_name v))

/-- Embeds the strict overload of `get_by_dot`. -/
def get_by_dot (data : Value) (path : String) : Except ConfyError Value :=
  getSegs path data (split_dot_path path)

/-- Segment-list worker of the defaulted `get_by_dot` overload.  Returning
the `default_val` pointer is modelled as `.ok none`; `.ok (some v)` models
returning a pointer into the tree. -/
def getSegsD (path : String) : Value → List String → Except ConfyError (Option Value)
  | v, [] => .ok (some v)
  | .obj kvs, seg :: rest =>
      match objGet kvs seg with
      | some v' => getSegsD path v' rest
      | none => .ok none
  | .arr xs, seg :: rest =>
      if is_array_index seg then
        match parse_array_index seg with
        | .error e => .error e
        | .ok idx =>
            if h : idx < xs.length then getSegsD path (xs.get ⟨idx, h⟩) rest
            else .ok none
      else .ok none
  | v, _ :: _ => .error (.typeError path "object or array" (type_name v))

/-- Embeds the defaulted overload of `get_by_dot` from `DotPath.cpp`:
`.ok none` models "returned the fallback". -/
def get_by_dot_d (data : Value) (path : String) : Except ConfyError (Option Value) :=
  getSegsD path data (split_dot_path path)

/-- Segment-list worker of `contains_dot` from `DotPath.cpp`. -/
def containsSegs (path : String) : Value → List String → Except ConfyError Bool
  | _, [] => .ok true
  | .obj kvs, seg :: rest =>
      match objGet kvs seg with
      | some v' => containsSegs path v' rest
      | none => .ok false
  | .arr xs, seg :: rest =>
      if is_array_index seg then
        match parse_array_index seg with
        | .error e => .error e
        | .ok idx =>
            if h : idx < xs.length then containsSegs path (xs.get ⟨idx, h⟩) rest
            else .ok false
      else .ok false
  | v, _ :: _ => .error (.typeError path "object or array" (type_name v))

/-- Embeds `contains_dot`. -/
def contains_dot (data : Value) (path : String) : Except ConfyError Bool :=
  containsSegs path data (split_dot_path path)

/-- Segment-list worker of `set_by_dot` from `DotPath.cpp`: walk all but the
last segment (creating or overwriting intermediates when `create_missing`),
then write the final segment into the (now guaranteed) object. -/
def setSegs (path : String) (value : Value) (create_missing : Bool) :
    Value → List String → Except ConfyError Value
  | _, [] => .ok value
  | v, seg :: rest =>
      match rest with
      | [] =>
          match v with
          | .obj kvs => .ok (.obj (objInsert kvs seg value))
          | other =>
              if create_missing then .ok (.obj [(seg, value)])
              else .error (.typeError path "object" (type_name other))
      | _ :: _ =>
          let kvsE : Except ConfyError (List (String × Value)) :=
            match v with
            | .obj kvs => .ok kvs
            | other =>
                if create_missing then .ok []
                else .error (.typeError path "object" (type_name other))
          match kvsE with
          | .error e => .error e
          | .ok kvs =>
              match objGet kvs seg with
              | some child =>
                  match setSegs path value create_missing child rest with
                  | .ok c' => .ok (.obj (objInsert kvs seg c'))
                  | .error e => .error e
              | none =>
                  if create_missing then
                    match setSegs path value create_missing (.obj []) rest with
                    | .ok c' => .ok (.obj (objInsert kvs seg c'))
                    | .error e => .error e
                  else .error (.keyError path seg)

/-- Embeds `set_by_dot` (the tree is passed and returned by value; the C++
mutates it in place). -/
def set_by_dot (data : Value) (path : String) (value : Value)
    (create_missing : Bool) : Except ConfyError Value :=
  setSegs path value create_missing data (split_dot_path path)

/-! ## Value parser (`Parse.cpp`) -/

/-- Embeds `std::tolower` in the C locale on one character (the inputs are
ASCII environment-variable material). -/
def lowerChar (c : Char) : Char :=
  if 'A' ≤ c ∧ c ≤ 'Z' then Char.ofNat (c.toNat + 32) else c

/-- Embeds `std::toupper` in the C locale on one character. -/
def upperChar (c : Char) : Char :=
  if 'a' ≤ c ∧ c ≤ 'z' then Char.ofNat (c.toNat - 32) else c

/-- Embeds the `to_lower` helper (shared by `Parse.cpp` and
`EnvMapper.cpp`). -/
def to_lower (s : String) : String := String.mk (s.data.map lowerChar)

/-- Embeds the `to_upper` helper of `EnvMapper.cpp`. -/
def to_upper (s : String) : String := String.mk (s.data.map upperChar)

/-- Worker for `replace_all`: scan left to right; on an occurrence of the
(nonempty) pattern, emit the replacement and resume after the occurrence
(the replacement text is never rescanned), exactly as the
`find`/`replace`/`pos += to.length()` loop in `EnvMapper.cpp` does.
Structural recursion on `fuel`; each step consumes at least one input
character, so `fuel = input length` never runs out (with a nonempty
pattern a match consumes `pat.length ≥ 1` characters per fuel unit). -/
def replaceAllAux (pat rep : List Char) : Nat → List Char → List Char
  | 0, l => l
  | _ + 1, [] => []
  | fuel + 1, c :: rest =>
      if pat.isPrefixOf (c :: rest) then
        rep ++ replaceAllAux pat rep fuel ((c :: rest).drop pat.length)
      else
        c :: replaceAllAux pat rep fuel rest

/-- Embeds the `replace_all` helper of `EnvMapper.cpp`.  The C++ loop does
not terminate on an empty pattern; it is only ever called with the nonempty
patterns `"__"`, `"_"`, `"."` and the placeholder, and the empty-pattern
case is given the identity behaviour here. -/
def replace_all (s pat rep : String) : String :=
  match pat.data with
  | [] => s
  | _ :: _ => String.mk (replaceAllAux pat.data rep.data s.data.length s.data)

/-- The behaviour of the external collaborators threaded through the value
parser: `jsonParse` is `Value::parse` (the nlohmann JSON text parser,
`none` = the parse threw), `strToFloat` is `std::stod` (`none` = it threw
`out_of_range`).  Every theorem below holds for every `Ext`. -/
structure Ext where
  jsonParse : String → Option Value
  strToFloat : String → Option Float

/-- The optional leading minus (`-?`) shared by the integer and float
regexes of `parse_value`. -/
def stripSign : List Char → List Char
  | '-' :: rest => rest
  | l => l

/-- Model of the regex `^-?[0-9]+$` from `parse_value` (rule T3). -/
def int_pattern (cs : List Char) : Bool :=
  let t := stripSign cs
  !t.isEmpty && t.all Char.isDigit

/-- Consume a maximal run of leading digits, returning the run and the
rest (used to model the float regex). -/
def takeDigits : List Char → List Char × List Char
  | [] => ([], [])
  | c :: rest =>
      if c.isDigit then
        let (d, r) := takeDigits rest
        (c :: d, r)
      else ([], c :: rest)

/-- Model of the regex `^-?[0-9]+\.[0-9]+([eE][+-]?[0-9]+)?$` from
`parse_value` (rule T4). -/
def float_pattern (cs : List Char) : Bool :=
  let t := stripSign cs
  match takeDigits t with
  | ([], _) => false
  | (_ :: _, r1) =>
      match r1 with
      | '.' :: r2 =>
          match takeDigits r2 with
          | ([], _) => false
          | (_ :: _, []) => true
          | (_ :: _, e :: r4) =>
              if e = 'e' ∨ e = 'E' then
                let r5 := match r4 with
                  | '+' :: t4 => t4
                  | '-' :: t4 => t4
                  | t4 => t4
                match takeDigits r5 with
                | ([], _) => false
                | (_ :: _, r6) => r6.isEmpty
              else false
      | _ => false

/-- The mathematical value `std::stoll` computes on a string matching
`^-?[0-9]+$` (it consumes the whole string there). -/
def strToInt (cs : List Char) : Int :=
  match cs with
  | '-' :: rest => -(rest.foldl (fun n c => n * 10 + (c.toNat - 48)) 0 : Nat)
  | l => (l.foldl (fun n c => n * 10 + (c.toNat - 48)) 0 : Nat)

/-- `int64_t` range check: `std::stoll` throws `out_of_range` exactly when
the value is outside `[-2^63, 2^63 - 1]`. -/
def fitsInt64 (n : Int) : Bool :=
  -(2 ^ 63) ≤ n ∧ n ≤ 2 ^ 63 - 1

/-- Embeds `parse_value` from `Parse.cpp`: fixed-priority rules
bool / null / int64 / float / JSON compound / quoted string / raw string,
each failed numeric or JSON parse falling through to the next rule. -/
def parse_value (ext : Ext) (s : String) : Value :=
  match s.data with
  | [] => .str ""
  | c0 :: _ =>
    let lower := to_lower s
    if lower = "true" then .bool true
    else if lower = "false" then .bool false
    else if lower = "null" then .null
    else
      let intRes : Option Value :=
        if int_pattern s.data then
          let n := strToInt s.data
          if fitsInt64 n then some (.int n) else none
        else none
      match intRes with
      | some v => v
      | none =>
        let floatRes : Option Value :=
          if float_pattern s.data then (ext.strToFloat s).map .float
          else none
        match floatRes with
        | some v => v
        | none =>
          let cLast := s.data.getLastD ' '
          let compoundRes : Option Value :=
            if (c0 = '{' ∧ cLast = '}') ∨ (c0 = '[' ∧ cLast = ']') then
              ext.jsonParse s
            else none
          match compoundRes with
          | some v => v
          | none =>
            let quotedRes : Option Value :=
              if c0 = '"' ∧ cLast = '"' ∧ s.data.length ≥ 2 then
                match ext.jsonParse s with
                | some (.str t) => some (.str t)
                | _ => none
              else none
            match quotedRes with
            | some v => v
            | none => .str s

/-! ## Environment mapper (`EnvMapper.cpp`)

The process environment (read by `get_all_env_vars`) is injected as an
explicit snapshot `env : List (String × String)`, per the specification's
own design note on testable re-architecture; everything downstream of the
read is embedded from the source. -/

/-- Embeds the `SYSTEM_VAR_PREFIXES` exclusion table of `EnvMapper.cpp`,
verbatim. -/
def SYSTEM_VAR_PREFIXES : List String := [
  "PATH", "HOME", "USER", "SHELL", "TERM", "LANG", "LC_",
  "PWD", "OLDPWD", "HOSTNAME", "LOGNAME", "MAIL", "EDITOR",
  "VISUAL", "TMPDIR", "TMP", "TEMP", "XDG_", "DISPLAY",
  "SSH_", "GPG_", "DBUS_",
  "DESKTOP_", "GNOME_", "KDE_", "GTK_", "QT_",
  "JAVA_", "PYTHON", "NODE_", "NPM_", "NVM_",
  "VIRTUAL_ENV", "CONDA_", "PIP_", "CARGO_", "RUST", "GO",
  "RBENV", "GEM_", "BUNDLE_", "RAILS_", "RACK_",
  "_", "PS1", "PS2", "PS4", "PROMPT_",
  "HISTFILE", "HISTSIZE", "SAVEHIST",
  "LESS", "MORE", "PAGER", "MANPATH", "INFOPATH",
  "LD_", "DYLD_", "LIBPATH", "CPATH", "LIBRARY_PATH", "PKG_CONFIG",
  "CMAKE_", "CC", "CXX", "CFLAGS", "CXXFLAGS", "LDFLAGS",
  "MAKEFLAGS", "MAKELEVEL", "SHLVL",
  "COLORTERM", "COLORFGBG", "WINDOWID", "TERM_PROGRAM",
  "ITERM_", "VSCODE_", "WSL_", "WSLENV", "WT_",
  "CONEMU", "ANSICON", "CLICOLOR", "FORCE_", "NO_COLOR",
  "DEBUG", "VERBOSE", "CI",
  "GITHUB_", "GITLAB_", "TRAVIS_", "CIRCLECI",
  "JENKINS_", "BUILDKITE_", "AZURE_",
  "AWS_", "GOOGLE_", "DOCKER_", "KUBERNETES_", "K8S_", "COMPOSE_",
  "ZSH_", "LS_", "PYTHONUTF8", "PYTHONPATH",
  "WINDOWPATH", "QTWEBENGINE_", "MOZ_", "GDK_",
  "BROWSER", "USERNAME", "SYSTEMROOT", "DOMAINNAME",
  "HOSTTYPE", "OSTYPE", "MACHTYPE"]

/-- Embeds `starts_with_icase` from `EnvMapper.cpp` (case-insensitive
prefix test via per-character `toupper`). -/
def starts_with_icase (s pat : String) : Bool :=
  if pat.data.length ≤ s.data.length then
    (s.data.take pat.data.length).map upperChar == pat.data.map upperChar
  else false

/-- Embeds `is_system_variable`: a name is a system variable if it equals a
single-character entry exactly (case-insensitively) or starts with any
entry of the table (case-insensitively). -/
def is_system_variable (var_name : String) : Bool :=
  SYSTEM_VAR_PREFIXES.any fun p =>
    (p.data.length = 1 && to_upper var_name == to_upper p)
      || starts_with_icase var_name p

/-- Embeds `transform_env_name` (RULE E4): lowercase, protect `__` behind
the placeholder `"\x1F_USCORE_\x1F"`, turn `_` into `.`, restore the
placeholder. -/
def transform_env_name (name : String) : String :=
  let TEMP_MARKER : String := "\x1F_USCORE_\x1F"
  let r1 := to_lower name
  let r2 := replace_all r1 "__" TEMP_MARKER
  let r3 := replace_all r2 "_" "."
  replace_all r3 TEMP_MARKER "_"

/-- Embeds the `strip_prefix` helper of `EnvMapper.cpp`: drop
`PREFIX_` case-insensitively, or return `""` when the name does not start
with it. -/
def stripPfx (var_name pfx : String) : String :=
  if pfx = "" then var_name
  else
    let pfx_with_underscore := pfx ++ "_"
    if starts_with_icase var_name pfx_with_underscore then
      String.mk (var_name.data.drop pfx_with_underscore.data.length)
    else ""

/-- Embeds `collect_env_vars` over an explicit environment snapshot:
`none` disables env loading; a non-empty prefix is normalised (trailing
underscores stripped, one appended) and filtered case-insensitively; the
empty prefix keeps all non-system variables. -/
def collect_env_vars (env : List (String × String)) (pfxOpt : Option String) :
    List (String × String) :=
  match pfxOpt with
  | none => []
  | some pfx_str =>
    let pfx_match : String :=
      if pfx_str ≠ "" then
        String.mk ((pfx_str.data.reverse.dropWhile (· = '_')).reverse) ++ "_"
      else ""
    env.filter fun nv =>
      if pfx_match ≠ "" then starts_with_icase nv.1 pfx_match
      else !is_system_variable nv.1

mutual

/-- Embeds the `flatten_keys` helper: every dotted path of the object tree,
intermediate object paths included (the C++ returns a `std::set`; only
membership is ever used, so a list with possible duplicates is an
equivalent embedding). -/
def flatten_keys (v : Value) (pre : String) : List String :=
  match v with
  | .obj kvs => flattenKeysList kvs pre
  | _ => if pre = "" then [] else [pre]

/-- Object-binding loop of `flatten_keys`. -/
def flattenKeysList : List (String × Value) → String → List String
  | [], _ => []
  | (k, v) :: rest, pre =>
      let new_key := if pre = "" then k else pre ++ "." ++ k
      new_key ::
        ((match v with
          | .obj _ => flatten_keys v new_key
          | _ => []) ++ flattenKeysList rest pre)

end

mutual

/-- Embeds the `flatten_to_pairs` helper: the `(dot-path, value)` pairs of
the tree, object nodes listed before their children. -/
def flatten_to_pairs (v : Value) (pre : String) : List (String × Value) :=
  match v with
  | .obj kvs => flattenPairsList kvs pre
  | _ => if pre = "" then [] else [(pre, v)]

/-- Object-binding loop of `flatten_to_pairs`. -/
def flattenPairsList : List (String × Value) → String → List (String × Value)
  | [], _ => []
  | (k, v) :: rest, pre =>
      let new_key := if pre = "" then k else pre ++ "." ++ k
      (match v with
       | .obj _ => (new_key, v) :: flatten_to_pairs v new_key
       | _ => [(new_key, v)]) ++ flattenPairsList rest pre

end

/-- Separator join (the `if (i > 0) oss << sep; oss << part` loops used to
build underscore-joined and dot-joined keys in `remap_env_key`). -/
def joinSep (sep : String) : List String → String
  | [] => ""
  | [x] => x
  | x :: rest => x ++ sep ++ joinSep sep rest

/-- The first-underscore-split loop of `remap_env_key` (heuristic 0): for
each underscore position of the flat key in order, try
`root ++ "." ++ (rest with underscores dotted)` and then
`root ++ "." ++ rest` against the base-key set. -/
def uscoreSearch (base_keys : List String) : List Char → List Char → Option String
  | _, [] => none
  | root, c :: rest =>
      if c = '_' then
        let rootS := String.mk root
        let restS := String.mk rest
        let cand1 := rootS ++ "." ++ replace_all restS "_" "."
        if base_keys.contains cand1 then some cand1
        else
          let cand2 := rootS ++ "." ++ restS
          if base_keys.contains cand2 then some cand2
          else uscoreSearch base_keys (root ++ [c]) rest
      else uscoreSearch base_keys (root ++ [c]) rest

/-- The longest-prefix loop of `remap_env_key`, called with
`fuel = segments.length` and trying underscore-joined segment prefixes of
decreasing length.  The C++ iterates the `std::set` of base keys and
returns the first hit; the returned key does not depend on which element
hit, so an existence test is an equivalent embedding. -/
def longestPfxSearch (segments base_keys : List String) (total : Nat) :
    Nat → Option String
  | 0 => none
  | n + 1 =>
      let cand := joinSep "_" (segments.take (n + 1))
      let hit := base_keys.any fun bk =>
        bk = cand || (List.isPrefixOf (cand ++ ".").data bk.data
                        && cand.data.length < bk.data.length)
      if hit then
        if n + 1 = total then some cand
        else
          let remainder := joinSep "." (segments.drop (n + 1))
          let full_key := cand ++ "." ++ remainder
          if base_keys.contains full_key || base_keys.contains cand then
            some full_key
          else longestPfxSearch segments base_keys total n
      else longestPfxSearch segments base_keys total n

/-- Embeds `remap_env_key` (RULE E5-E7): exact match, underscore
reconstruction heuristics, longest-prefix search, then the
context-dependent fallback (`""` means "discard this variable"). -/
def remap_env_key (dot_path : String) (base_keys : List String)
    (pfxOpt : Option String) (load_dotenv : Bool) : String :=
  if base_keys.contains dot_path then dot_path
  else
    let reconstructed_flat := replace_all dot_path "." "_"
    match uscoreSearch base_keys [] reconstructed_flat.data with
    | some k => k
    | none =>
      if base_keys.contains reconstructed_flat then reconstructed_flat
      else
        let segments := split_dot_path dot_path
        match longestPfxSearch segments base_keys segments.length segments.length with
        | some k => k
        | none =>
          let is_empty_pfx : Bool := match pfxOpt with
            | some s => s = ""
            | none => false
          if is_empty_pfx && load_dotenv then ""
          else if !is_empty_pfx && load_dotenv then dot_path
          else if !is_empty_pfx && !load_dotenv then reconstructed_flat
          else dot_path

/-- Embeds `env_vars_to_nested`: strip the prefix, transform the name,
parse the value, and write it into a fresh tree, skipping any variable
whose `set_by_dot` throws. -/
def env_vars_to_nested (ext : Ext) (env_vars : List (String × String))
    (pfxOpt : Option String) : Value :=
  let pfx_str := pfxOpt.getD ""
  env_vars.foldl
    (fun acc nv =>
      let key_part := if pfx_str ≠ "" then stripPfx nv.1 pfx_str else nv.1
      if pfx_str ≠ "" ∧ key_part = "" then acc
      else
        let dot_key := transform_env_name key_part
        let parsed_value := parse_value ext nv.2
        match set_by_dot acc dot_key parsed_value true with
        | .ok r => r
        | .error _ => acc)
    (.obj [])

/-- Number of `.` characters in a string (`std::count` in the
depth-sorting comparator of `remap_and_flatten_env_data`). -/
def dotCount (s : String) : Nat := s.data.count '.'

/-- Insert into a list already sorted by strictly decreasing-or-equal dot
depth.  Together with `sortByDepth` this embeds the
`std::sort`-by-`depth_a > depth_b` step; for items of equal depth the C++
order is unspecified, and nothing proved here depends on it. -/
def insertByDepth (x : String × Value) : List (String × Value) → List (String × Value)
  | [] => [x]
  | y :: rest =>
      if dotCount y.1 ≥ dotCount x.1 then y :: insertByDepth x rest
      else x :: y :: rest

/-- Sort `(dot-path, value)` pairs by decreasing dot depth. -/
def sortByDepth (l : List (String × Value)) : List (String × Value) :=
  l.foldr insertByDepth []

/-- The per-item loop of `remap_and_flatten_env_data`: skip object values,
remap, drop discarded (`""`) keys, and keep only the first item for each
final key. -/
def remapLoop (base_keys : List String) (pfxOpt : Option String)
    (load_dotenv : Bool) :
    List (String × Value) → List String → List (String × Value)
  | [], _ => []
  | (dot_key, v) :: rest, assigned =>
      match v with
      | .obj _ => remapLoop base_keys pfxOpt load_dotenv rest assigned
      | _ =>
        let final_key := remap_env_key dot_key base_keys pfxOpt load_dotenv
        if final_key = "" then remapLoop base_keys pfxOpt load_dotenv rest assigned
        else if assigned.contains final_key then
          remapLoop base_keys pfxOpt load_dotenv rest assigned
        else (final_key, v) :: remapLoop base_keys pfxOpt load_dotenv rest (final_key :: assigned)

/-- The shallow defaults+file overlay at the top of
`remap_and_flatten_env_data` (`base_config[key] = value` per file binding).
When the defaults value is neither an object nor null the C++ `operator[]`
would throw; that combination is unreachable from `Config::load` (the file
guard is false whenever the merged defaults are not an object). -/
def baseOverlay (defaults_data : Value) (fkvs : List (String × Value)) : Value :=
  match defaults_data with
  | .obj dkvs => .obj (fkvs.foldl (fun acc kv => objInsert acc kv.1 kv.2) dkvs)
  | .null => .obj fkvs
  | other => other

/-- Embeds `remap_and_flatten_env_data`: overlay file keys onto defaults,
flatten both sides, sort candidates deepest-first, then remap with
first-seen-wins deduplication. -/
def remap_and_flatten_env_data (nested_env_data defaults_data file_data : Value)
    (pfxOpt : Option String) (load_dotenv : Bool) : List (String × Value) :=
  let base_config :=
    match file_data with
    | .obj fkvs => baseOverlay defaults_data fkvs
    | _ => defaults_data
  let base_keys := flatten_keys base_config ""
  let flat_items := sortByDepth (flatten_to_pairs nested_env_data "")
  remapLoop base_keys pfxOpt load_dotenv flat_items []

/-- Embeds `load_env_vars`: collect, nest, remap, then assemble the
surviving pairs into a fresh object tree (skipping any pair whose
`set_by_dot` throws). -/
def load_env_vars (ext : Ext) (env : List (String × String))
    (pfxOpt : Option String) (base_structure defaults_data file_data : Value)
    (load_dotenv : Bool) : Value :=
  let _ := base_structure
  let env_vars := collect_env_vars env pfxOpt
  if env_vars.isEmpty then .obj []
  else
    let nested_env := env_vars_to_nested ext env_vars pfxOpt
    let remapped :=
      remap_and_flatten_env_data nested_env defaults_data file_data pfxOpt load_dotenv
    remapped.foldl
      (fun acc kv =>
        match set_by_dot acc kv.1 kv.2 true with
        | .ok r => r
        | .error _ => acc)
      (.obj [])

/-! ## Resolution orchestrator (`Config.cpp`)

`Config::load`'s two external effects are injected explicitly: the file
collaborator's output is `fileData : Option Value` (`none` = empty
`file_path`, skip the file stage) and the post-dotenv-seeding process
environment is `env`.  Everything else is embedded from `Config.cpp`. -/

/-- Embeds `LoadOptions` (the fields the core pipeline reads; `file_path`
and `dotenv_path` only select external collaborator behaviour and are
replaced by the explicit `fileData`/`env` inputs of `Config_load`).
`pfxOpt` embeds the three-way `std::optional<std::string> prefix` field. -/
structure LoadOptions where
  defaults : Value := .obj []
  pfxOpt : Option String := none
  load_dotenv_file : Bool := true
  overrides : List (String × Value) := []
  mandatory : List String := []

/-- Embeds `Config::overrides_to_value`: parse string raw values through
`parse_value`, then build a nested tree via `set_by_dot` with
`create_missing = true`. -/
def overrides_to_value (ext : Ext) (overrides : List (String × Value)) :
    Except ConfyError Value :=
  overrides.foldlM
    (fun acc pv =>
      let parsed : Value := match pv.2 with
        | .str s => parse_value ext s
        | other => other
      set_by_dot acc pv.1 parsed true)
    (.obj [])

/-- The loop of `Config::validate_mandatory`: collect every mandatory key
whose `contains_dot` returns false or throws `TypeError`; any other
exception would propagate (none can — `contains_dot` only throws
`TypeError`). -/
def collect_missing (data : Value) : List String → Except ConfyError (List String)
  | [] => .ok []
  | key :: rest =>
      let isMissing : Except ConfyError Bool :=
        match contains_dot data key with
        | .ok b => .ok (!b)
        | .error (.typeError _ _ _) => .ok true
        | .error e => .error e
      match isMissing with
      | .error e => .error e
      | .ok m =>
          match collect_missing data rest with
          | .error e => .error e
          | .ok ms => .ok (if m then key :: ms else ms)

/-- Embeds `Config::validate_mandatory`: throw one
`MissingMandatoryConfig` carrying the complete missing list. -/
def validate_mandatory (data : Value) (mandatory : List String) :
    Except ConfyError Unit :=
  match collect_missing data mandatory with
  | .error e => .error e
  | .ok [] => .ok ()
  | .ok missing => .error (.missingMandatory missing)

/-- Stages 1-5 of `Config::load` (defaults, file merge, env merge,
overrides merge), before mandatory validation.  Note that the C++ passes
the literal `false` for `load_env_vars`'s `load_dotenv` argument,
regardless of `opts.load_dotenv_file`. -/
def loadMerged (ext : Ext) (opts : LoadOptions) (fileData : Option Value)
    (env : List (String × String)) : Except ConfyError Value :=
  let merged0 := match opts.defaults with
    | .obj kvs => .obj kvs
    | _ => Value.obj []
  let file_data := match fileData with
    | some f => f
    | none => .obj []
  let merged1 := match fileData with
    | some f => deep_merge merged0 f
    | none => merged0
  let merged2 := match opts.pfxOpt with
    | some pfx =>
        deep_merge merged1
          (load_env_vars ext env (some pfx) merged1 merged1 file_data false)
    | none => merged1
  match opts.overrides with
  | [] => .ok merged2
  | _ :: _ =>
      match overrides_to_value ext opts.overrides with
      | .ok ov => .ok (deep_merge merged2 ov)
      | .error e => .error e

/-- Embeds `Config::load` end to end: the merged pipeline result followed
by mandatory validation (the resulting `Config` is its root tree). -/
def Config_load (ext : Ext) (opts : LoadOptions) (fileData : Option Value)
    (env : List (String × String)) : Except ConfyError Value :=
  match loadMerged ext opts fileData env with
  | .error e => .error e
  | .ok merged =>
      match validate_mandatory merged opts.mandatory with
      | .error e => .error e
      | .ok _ => .ok merged

/-! ## Auxiliary predicates used by the statements -/

/-- Is this error a `TypeError`? -/
def ConfyError.isTypeErr : ConfyError → Bool
  | .typeError _ _ _ => true
  | _ => false

/-- Is this error a `KeyError`? -/
def ConfyError.isKeyErr : ConfyError → Bool
  | .keyError _ _ => true
  | _ => false

/-- Is this value an Object? (`is_object()`) -/
def valIsObj : Value → Bool
  | .obj _ => true
  | _ => false

/-- The bindings `set_by_dot` continues with at an intermediate node when
`create_missing` holds: the node's own bindings for an object, the fresh
empty object's for anything else (the overwrite in RULE D4). -/
def effKvs : Value → List (String × Value)
  | .obj kvs => kvs
  | _ => []

/-- "The mandatory path `key` is missing from `data`" in the sense of
`Config::validate_mandatory`: `contains_dot` returns `false`, or the check
throws `TypeError`. -/
def isMissingKey (data : Value) (key : String) : Bool :=
  match contains_dot data key with
  | .ok b => !b
  | .error (.typeError _ _ _) => true
  | .error _ => false

/-- A concrete external-collaborator behaviour (every JSON text parse and
every `std::stod` call fails), used to instantiate theorems that hold for
all `Ext`. -/
def extNone : Ext := ⟨fun _ => none, fun _ => none⟩

/-! ## Object-map lemmas -/

theorem objGet_objInsert_self (l : List (String × Value)) (k : String) (v : Value) :
    objGet (objInsert l k v) k = some v := by
  induction l with
  | nil => simp [objInsert, objGet]
  | cons kv rest ih =>
      obtain ⟨k', v'⟩ := kv
      by_cases h : k' = k <;> simp [objInsert, objGet, h, ih]

theorem objGet_objInsert_ne (l : List (String × Value)) (k q : String) (v : Value)
    (h : q ≠ k) : objGet (objInsert l k v) q = objGet l q := by
  induction l with
  | nil => simp [objInsert, objGet, Ne.symm h]
  | cons kv rest ih =>
      obtain ⟨k', v'⟩ := kv
      by_cases hk : k' = k
      · subst hk
        simp [objInsert, objGet, Ne.symm h]
      · simp [objInsert, objGet, hk, ih]

theorem objGet_append_single (l : List (String × Value)) (k q : String) (v : Value) :
    objGet (l ++ [(k, v)]) q =
      match objGet l q with
      | some w => some w
      | none => if k = q then some v else none := by
  induction l with
  | nil => simp [objGet]
  | cons kv rest ih =>
      obtain ⟨k', v'⟩ := kv
      by_cases h : k' = q <;> simp [objGet, h, ih]

theorem objGet_eq_none_of_not_mem (l : List (String × Value)) (k : String)
    (h : k ∉ l.map Prod.fst) : objGet l k = none := by
  induction l with
  | nil => rfl
  | cons kv rest ih =>
      obtain ⟨k', v'⟩ := kv
      simp only [List.map_cons, List.mem_cons] at h
      push_neg at h
      simp [objGet, Ne.symm h.1, ih h.2]

/-! ## Deep-merge lemmas and claims -/

/-- C8: for every Value `v`, `deep_merge v Null = v` and
`deep_merge Null v = v` — a Null incoming never erases an existing value,
and a Null base is replaced by the incoming value. -/
theorem merge_null_neutral (v : Value) :
    deep_merge v .null = v ∧ deep_merge .null v = v := by
  refine ⟨?_, ?_⟩ <;> cases v <;> rfl

/-- C3 (counterexample): the claim "for a key present in both, b's value
wins including when b's value is Null" is false on the code: with
`a = {k: 1}` and `b = {k: null}`, `deep_merge a b = {k: 1}`, not
`{k: null}`. -/
theorem merge_null_override_counterexample :
    deep_merge (.obj [("k", .int 1)]) (.obj [("k", .null)]) = .obj [("k", .int 1)] ∧
    Value.obj [("k", .int 1)] ≠ .obj [("k", .null)] := by
  refine ⟨rfl, ?_⟩
  intro h
  simp at h

/-- Pointwise characterisation of the object/object merge loop: for unique
incoming keys, the merged binding of `q` is `a`'s when only in `a`, `b`'s
when only in `b`, and `deep_merge` of the two when in both. -/
theorem objGet_mergeInto (kb : List (String × Value))
    (h : (kb.map Prod.fst).Nodup) (q : String) :
    ∀ ka : List (String × Value),
    objGet (mergeInto ka kb) q =
      match objGet ka q, objGet kb q with
      | none, none => none
      | some va, none => some va
      | none, some vb => some vb
      | some va, some vb => some (deep_merge va vb) := by
  induction kb with
  | nil =>
      intro ka
      simp only [mergeInto, objGet]
      cases objGet ka q <;> rfl
  | cons kv rest ih =>
      obtain ⟨k, v⟩ := kv
      simp only [List.map_cons, List.nodup_cons] at h
      intro ka
      by_cases hq : q = k
      · subst hq
        have hrest : objGet rest q = none := objGet_eq_none_of_not_mem _ _ h.1
        cases hka : objGet ka q with
        | some bv =>
            simp only [mergeInto, hka, ih h.2]
            rw [objGet_objInsert_self, hrest]
            simp [objGet]
        | none =>
            simp only [mergeInto, hka, ih h.2]
            rw [objGet_append_single, hka, hrest]
            simp [objGet]
      · cases hka : objGet ka k with
        | some bv =>
            simp only [mergeInto, hka, ih h.2]
            rw [objGet_objInsert_ne _ _ _ _ hq]
            simp [objGet, Ne.symm hq]
        | none =>
            simp only [mergeInto, hka, ih h.2]
            rw [objGet_append_single]
            cases objGet ka q <;> simp [objGet, hka, Ne.symm hq]

/-- C3 (amended): keys present only in `a` or only in `b` survive
unchanged; a key present in both merges recursively through `deep_merge`
(object/object recurses; a Null incoming value keeps `a`'s value; any
other non-object-pair collision is won by `b`'s value). -/
theorem merge_object_pointwise (ka kb : List (String × Value))
    (h : (kb.map Prod.fst).Nodup) (q : String) :
    deep_merge (.obj ka) (.obj kb) = .obj (mergeInto ka kb) ∧
    (objGet (mergeInto ka kb) q =
      match objGet ka q, objGet kb q with
      | none, none => none
      | some va, none => some va
      | none, some vb => some vb
      | some va, some vb => some (deep_merge va vb)) ∧
    (∀ va : Value, deep_merge va .null = va) ∧
    (∀ va vb : Value, vb ≠ .null → (valIsObj va = false ∨ valIsObj vb = false) →
      deep_merge va vb = vb) := by
  refine ⟨rfl, objGet_mergeInto kb h q ka, ?_, ?_⟩
  · intro va; cases va <;> rfl
  · intro va vb hnull hobj
    cases va <;> cases vb <;> first
      | rfl
      | exact absurd rfl hnull
      | simp [valIsObj] at hobj

theorem merge_object_pointwise_witness :
    (([("k", Value.null)].map Prod.fst).Nodup) ∧
    (deep_merge (.obj [("j", .int 2)]) (.obj [("k", .null)]) =
        .obj (mergeInto [("j", .int 2)] [("k", .null)]) ∧
      (objGet (mergeInto [("j", .int 2)] [("k", .null)]) "k" =
        match objGet [("j", Value.int 2)] "k", objGet [("k", Value.null)] "k" with
        | none, none => none
        | some va, none => some va
        | none, some vb => some vb
        | some va, some vb => some (deep_merge va vb)) ∧
      (∀ va : Value, deep_merge va .null = va) ∧
      (∀ va vb : Value, vb ≠ .null → (valIsObj va = false ∨ valIsObj vb = false) →
        deep_merge va vb = vb)) :=
  ⟨by decide, merge_object_pointwise [("j", .int 2)] [("k", .null)] (by decide) "k"⟩

/-! ## Environment-name transformation (C1) -/

/-- C1: evaluating `transform_env_name` at `"FEATURE_FLAGS__BETA"`.  The
placeholder `"\x1F_USCORE_\x1F"` itself contains underscores, so step 3
(`_` → `.`) rewrites the placeholder to `"\x1F.USCORE.\x1F"` and step 4
finds nothing to restore: the result is
`"feature.flags\x1F.USCORE.\x1Fbeta"`, not `"feature_flags.beta"`. -/
theorem transform_env_name_marker_corrupted :
    transform_env_name "FEATURE_FLAGS__BETA" = "feature.flags\x1F.USCORE.\x1Fbeta" ∧
    transform_env_name "FEATURE_FLAGS__BETA" ≠ "feature_flags.beta" :=
  ⟨rfl, by decide⟩

/-! ## Conservative-mode discard through `Config::load` (C2) -/

/-- C2: evaluating `Config::load` with the empty prefix option, dotenv
loading enabled, and one ambient variable `SOME_KEY=x` whose candidate
path `some.key` matches no remap heuristic against the empty defaults+file
base: the pair is NOT discarded — `Config.cpp` passes the literal `false`
as `load_env_vars`'s `load_dotenv` argument, so `remap_env_key` falls to
its keep-as-is default instead of the conservative-mode discard. -/
theorem load_empty_pfx_dotenv_keeps_unmatched :
    Config_load extNone
        { pfxOpt := some "", load_dotenv_file := true } none [("SOME_KEY", "x")]
      = .ok (.obj [("some", .obj [("key", .str "x")])]) ∧
    get_by_dot (.obj [("some", .obj [("key", .str "x")])]) "some.key"
      = .ok (.str "x") :=
  ⟨rfl, rfl⟩

/-! ## Set/get round trip (C4) -/

/-- One-step unfolding of `setSegs` at an intermediate segment with
`create_missing = true` (definitional). -/
theorem setSegs_cons₂ (p : String) (val : Value) (kvs : List (String × Value))
    (seg r : String) (rs : List String) :
    setSegs p val true (.obj kvs) (seg :: r :: rs) =
      (match objGet kvs seg with
       | some child =>
          match setSegs p val true child (r :: rs) with
          | .ok c' => .ok (.obj (objInsert kvs seg c'))
          | .error e => .error e
       | none =>
          match setSegs p val true (.obj []) (r :: rs) with
          | .ok c' => .ok (.obj (objInsert kvs seg c'))
          | .error e => .error e) := rfl

theorem setSegs_true_total (p : String) (val : Value) :
    ∀ (segs : List String) (v : Value), ∃ w, setSegs p val true v segs = .ok w := by
  intro segs
  induction segs with
  | nil => intro v; exact ⟨val, rfl⟩
  | cons seg rest ih =>
      intro v
      cases rest with
      | nil => cases v <;> simp [setSegs]
      | cons r rs =>
          have hkvs : ∀ kvs : List (String × Value),
              ∃ w, setSegs p val true (.obj kvs) (seg :: r :: rs) = .ok w := by
            intro kvs
            cases hget : objGet kvs seg with
            | some child =>
                obtain ⟨c', hc⟩ := ih child
                refine ⟨.obj (objInsert kvs seg c'), ?_⟩
                simp only [setSegs_cons₂, hget, hc]
            | none =>
                obtain ⟨c', hc⟩ := ih (.obj [])
                refine ⟨.obj (objInsert kvs seg c'), ?_⟩
                simp only [setSegs_cons₂, hget, hc]
          cases v with
          | obj kvs => exact hkvs kvs
          | null => exact hkvs []
          | bool b => exact hkvs []
          | int n => exact hkvs []
          | float f => exact hkvs []
          | str s => exact hkvs []
          | arr xs => exact hkvs []

theorem getSegs_after_setSegs (p q : String) (val : Value) :
    ∀ (segs : List String) (v w : Value),
      setSegs p val true v segs = .ok w → getSegs q w segs = .ok val := by
  intro segs
  induction segs with
  | nil =>
      intro v w h
      simp only [setSegs, Except.ok.injEq] at h
      subst h
      cases val <;> rfl
  | cons seg rest ih =>
      intro v w h
      cases rest with
      | nil =>
          have hw : ∃ kvs : List (String × Value), w = .obj (objInsert kvs seg val) := by
            cases v with
            | obj kvs =>
                simp only [setSegs, Except.ok.injEq] at h
                exact ⟨kvs, h.symm⟩
            | _ =>
                simp only [setSegs, if_true, Except.ok.injEq] at h
                exact ⟨[], h.symm⟩
          obtain ⟨kvs, hwe⟩ := hw
          subst hwe
          simp only [getSegs, objGet_objInsert_self]
      | cons r rs =>
          have heff : setSegs p val true (.obj (effKvs v)) (seg :: r :: rs) = .ok w := by
            cases v <;> simpa [setSegs, effKvs] using h
          revert heff
          generalize effKvs v = kvs
          intro heff
          rw [setSegs_cons₂] at heff
          cases hget : objGet kvs seg with
          | some child =>
              simp only [hget] at heff
              cases hc : setSegs p val true child (r :: rs) with
              | ok c' =>
                  rw [hc] at heff
                  simp only [Except.ok.injEq] at heff
                  subst heff
                  simp only [getSegs, objGet_objInsert_self]
                  exact ih child c' hc
              | error e => rw [hc] at heff; simp at heff
          | none =>
              simp only [hget] at heff
              cases hc : setSegs p val true (.obj []) (r :: rs) with
              | ok c' =>
                  rw [hc] at heff
                  simp only [Except.ok.injEq] at heff
                  subst heff
                  simp only [getSegs, objGet_objInsert_self]
                  exact ih _ c' hc
              | error e => rw [hc] at heff; simp at heff

/-- C4: for every tree, dot-path and value, `set` with
`create_missing = true` followed by strict `get` on the same path returns
exactly the written value (the zero-segment case replaces and returns the
root). -/
theorem set_get_roundtrip (t : Value) (p : String) (v : Value) :
    (set_by_dot t p v true).bind (fun w => get_by_dot w p) = .ok v := by
  obtain ⟨w, hw⟩ := setSegs_true_total p v (split_dot_path p) t
  unfold set_by_dot get_by_dot
  rw [hw]
  exact getSegs_after_setSegs p p v (split_dot_path p) t w hw

/-! ## Overrides route strings through the value parser (C9) -/

/-- C9: an override whose raw value is a String is parsed by `parse_value`
before being set, so the override tree resolves the path to the parsed
value; in particular `{"db.port": "5433"}` resolves `db.port` through
`Config::load` to the Int64 `5433`, not the String `"5433"`. -/
theorem overrides_string_parsed (ext : Ext) (p s : String) :
    (overrides_to_value ext [(p, .str s)]).bind (fun t => get_by_dot t p)
        = .ok (parse_value ext s) ∧
    (Config_load extNone { overrides := [("db.port", .str "5433")] } none []).bind
        (fun t => get_by_dot t "db.port") = .ok (.int 5433) ∧
    Value.int 5433 ≠ .str "5433" := by
  refine ⟨?_, rfl, by simp⟩
  have htot := setSegs_true_total p (parse_value ext s) (split_dot_path p) (.obj [])
  obtain ⟨w, hw⟩ := htot
  have hov : overrides_to_value ext [(p, .str s)] = .ok w := by
    simp only [overrides_to_value, List.foldlM, set_by_dot]
    rw [hw]
    rfl
  rw [hov]
  exact getSegs_after_setSegs p p (parse_value ext s) (split_dot_path p) _ w hw



theorem stripSign_ne {a : Char} {l : List Char} (ha : a ≠ '-') :
    stripSign (a :: l) = a :: l := by
  unfold stripSign
  split
  · next heq => rw [List.cons.injEq] at heq; exact absurd heq.1 ha
  · rfl

theorem int_pattern_chars {cs : List Char} (h : int_pattern cs = true) :
    ∀ c ∈ cs, c = '-' ∨ c.isDigit = true := by
  cases cs with
  | nil => simp [int_pattern, stripSign] at h
  | cons a l =>
      by_cases ha : a = '-'
      · subst ha
        simp only [int_pattern, stripSign, Bool.and_eq_true, List.all_eq_true] at h
        intro c hc
        rcases List.mem_cons.mp hc with hc | hc
        · exact Or.inl hc
        · exact Or.inr (h.2 c hc)
      · rw [int_pattern, stripSign_ne ha] at h
        simp only [Bool.and_eq_true, List.all_eq_true] at h
        intro c hc
        exact Or.inr (h.2 c hc)

theorem takeDigits_all {l : List Char} (h : ∀ c ∈ l, c.isDigit = true) :
    takeDigits l = (l, []) := by
  induction l with
  | nil => rfl
  | cons a rest ih =>
      have ha := h a (List.mem_cons_self a rest)
      simp [takeDigits, ha, ih (fun c hc => h c (List.mem_cons_of_mem a hc))]

theorem float_pattern_of_int {cs : List Char} (h : int_pattern cs = true) :
    float_pattern cs = false := by
  have hall : ∀ c ∈ stripSign cs, c.isDigit = true := by
    simp only [int_pattern, Bool.and_eq_true, List.all_eq_true] at h
    exact h.2
  have hne : stripSign cs ≠ [] := by
    simp only [int_pattern, Bool.and_eq_true] at h
    intro he
    rw [he] at h
    simp at h
  simp only [float_pattern]
  rw [takeDigits_all hall]
  cases hs : stripSign cs with
  | nil => exact absurd hs hne
  | cons a l => rfl

theorem digit_char_facts {c : Char} (h : c.isDigit = true) :
    lowerChar c = c ∧ c ≠ '{' ∧ c ≠ '[' ∧ c ≠ '"' := by
  simp only [Char.isDigit, Bool.and_eq_true, decide_eq_true_eq, ge_iff_le] at h
  have h57 : c.toNat ≤ 57 := UInt32.toNat_le_of_le (by norm_num [UInt32.size]) h.2
  have h48 : 48 ≤ c.toNat := UInt32.le_toNat_of_le (by norm_num [UInt32.size]) h.1
  refine ⟨?_, ?_, ?_, ?_⟩
  · simp only [lowerChar]
    rw [if_neg]
    intro hc
    have := hc.1
    rw [Char.le_def] at this
    have h65 : 65 ≤ c.toNat := UInt32.le_toNat_of_le (by norm_num [UInt32.size]) this
    omega
  all_goals (intro hc; subst hc; simp [Char.toNat, UInt32.size] at h57 h48)

theorem map_id_of_mem {l : List Char} {f : Char → Char}
    (h : ∀ c ∈ l, f c = c) : l.map f = l := by
  induction l with
  | nil => rfl
  | cons a rest ih =>
      simp [h a (List.mem_cons_self a rest),
            ih (fun c hc => h c (List.mem_cons_of_mem a hc))]

/-- C10: an input matching `^-?[0-9]+$` whose value does not fit a signed
64-bit integer makes `std::stoll` throw; `parse_value` neither fails nor
truncates — it falls through the float/compound/quoted rules (none of which
can match a sign-and-digits string) and returns the original string. -/
theorem parse_value_int_overflow (ext : Ext) (s : String)
    (hpat : int_pattern s.data = true)
    (hfit : fitsInt64 (strToInt s.data) = false) :
    parse_value ext s = .str s := by
  have hchars := int_pattern_chars hpat
  have hlc : ∀ c ∈ s.data, lowerChar c = c := by
    intro c hc
    rcases hchars c hc with h | h
    · subst h; decide
    · exact (digit_char_facts h).1
  have hlower : to_lower s = s := by
    unfold to_lower
    rw [map_id_of_mem hlc]
  obtain ⟨c0, cs, hdata⟩ : ∃ c0 cs, s.data = c0 :: cs := by
    cases hd : s.data with
    | nil => rw [hd] at hpat; simp [int_pattern, stripSign] at hpat
    | cons a l => exact ⟨a, l, rfl⟩
  have hc0 : c0 = '-' ∨ c0.isDigit = true :=
    hchars c0 (by rw [hdata]; exact List.mem_cons_self _ _)
  have hb : c0 ≠ '{' ∧ c0 ≠ '[' ∧ c0 ≠ '"' := by
    rcases hc0 with h | h
    · subst h; refine ⟨by decide, by decide, by decide⟩
    · have hf := digit_char_facts h
      exact ⟨hf.2.1, hf.2.2.1, hf.2.2.2⟩
  have hne_true : s ≠ "true" := by
    intro he
    have hmem : 't' ∈ s.data := by rw [he]; decide
    rcases hchars 't' hmem with h | h <;> exact absurd h (by decide)
  have hne_false : s ≠ "false" := by
    intro he
    have hmem : 'f' ∈ s.data := by rw [he]; decide
    rcases hchars 'f' hmem with h | h <;> exact absurd h (by decide)
  have hne_null : s ≠ "null" := by
    intro he
    have hmem : 'u' ∈ s.data := by rw [he]; decide
    rcases hchars 'u' hmem with h | h <;> exact absurd h (by decide)
  have hfloat : float_pattern s.data = false := float_pattern_of_int hpat
  have hnotbrace :
      ¬((c0 = '{' ∧ (c0 :: cs).getLastD ' ' = '}') ∨
        (c0 = '[' ∧ (c0 :: cs).getLastD ' ' = ']')) := by
    rintro (⟨h1, _⟩ | ⟨h1, _⟩)
    · exact hb.1 h1
    · exact hb.2.1 h1
  have hnotquote :
      ¬(c0 = '"' ∧ (c0 :: cs).getLastD ' ' = '"' ∧ (c0 :: cs).length ≥ 2) := by
    rintro ⟨h1, _⟩
    exact hb.2.2 h1
  rw [hdata] at hpat hfit hfloat
  simp only [parse_value, hdata, hlower, hpat, hfit, hfloat, hne_true, hne_false, hne_null,
    if_true, if_false, Bool.false_eq_true, ite_false, hnotbrace, hnotquote]

theorem fallback_err_iff (p seg' : String) (e : ConfyError) :
    ((Except.ok none : Except ConfyError (Option Value)) = .error e) ↔
    ((Except.error (.keyError p seg') : Except ConfyError Value) = .error e ∧
      e.isKeyErr = false) := by
  constructor
  · intro h; exact absurd h (by simp)
  · rintro ⟨he, hk⟩
    simp only [Except.error.injEq] at he
    subst he
    simp [ConfyError.isKeyErr] at hk

theorem nonKey_err_iff (e0 : ConfyError) (h : e0.isKeyErr = false) (e : ConfyError) :
    ((Except.error e0 : Except ConfyError (Option Value)) = .error e) ↔
    ((Except.error e0 : Except ConfyError Value) = .error e ∧ e.isKeyErr = false) := by
  constructor
  · intro he
    simp only [Except.error.injEq] at he
    subst he
    exact ⟨rfl, h⟩
  · rintro ⟨he, _⟩
    simp only [Except.error.injEq] at he
    subst he
    rfl

theorem err_err_iff (e0 e : ConfyError) :
    ((Except.error e0 : Except ConfyError Bool) = .error e) ↔
    ((Except.error e0 : Except ConfyError (Option Value)) = .error e) := by
  simp

theorem parse_array_index_error {seg : String} {e : ConfyError}
    (h : parse_array_index seg = .error e) : e = .stdOutOfRange seg := by
  simp only [parse_array_index] at h
  split at h
  · exact absurd h (by simp)
  · simp only [Except.error.injEq] at h
    exact h.symm

theorem getSegsD_vs_getSegs (p : String) :
    ∀ (segs : List String) (v : Value),
      (getSegsD p v segs = .ok none ↔ ∃ m, getSegs p v segs = .error (.keyError p m))
    ∧ (∀ u, getSegsD p v segs = .ok (some u) ↔ getSegs p v segs = .ok u)
    ∧ (∀ e, getSegsD p v segs = .error e ↔
          (getSegs p v segs = .error e ∧ e.isKeyErr = false)) := by
  intro segs
  induction segs with
  | nil =>
      intro v
      refine ⟨by simp [getSegs, getSegsD], fun u => by simp [getSegs, getSegsD],
        fun e => by simp [getSegs, getSegsD]⟩
  | cons seg rest ih =>
      intro v
      cases v with
      | obj kvs =>
          cases hget : objGet kvs seg with
          | some v' =>
              simp only [getSegs, getSegsD, hget]
              exact ih v'
          | none =>
              simp only [getSegs, getSegsD, hget]
              exact ⟨by simp, fun u => by simp, fun e => fallback_err_iff p seg e⟩
      | arr xs =>
          simp only [getSegs, getSegsD]
          by_cases hidx : is_array_index seg = true
          · simp only [hidx, if_true]
            cases hpi : parse_array_index seg with
            | error e0 =>
                simp only [hpi]
                have he0 : e0.isKeyErr = false := by
                  rw [parse_array_index_error hpi]; rfl
                exact ⟨by simp [parse_array_index_error hpi],
                  fun u => by simp, fun e => nonKey_err_iff e0 he0 e⟩
            | ok idx =>
                simp only [hpi]
                by_cases hlt : idx < xs.length
                · simp only [dif_pos hlt]
                  exact ih _
                · simp only [dif_neg hlt]
                  exact ⟨by simp, fun u => by simp,
                    fun e => fallback_err_iff p (seg ++ " (index out of range)") e⟩
          · simp only [hidx, Bool.false_eq_true, if_false]
            exact ⟨by simp, fun u => by simp,
              fun e => fallback_err_iff p (seg ++ " (not a valid array index)") e⟩
      | null =>
          exact ⟨by simp [getSegs, getSegsD], fun u => by simp [getSegs, getSegsD],
            fun e => nonKey_err_iff (.typeError p "object or array" (type_name .null)) rfl e⟩
      | bool b =>
          exact ⟨by simp [getSegs, getSegsD], fun u => by simp [getSegs, getSegsD],
            fun e => nonKey_err_iff (.typeError p "object or array" (type_name (.bool b))) rfl e⟩
      | int n =>
          exact ⟨by simp [getSegs, getSegsD], fun u => by simp [getSegs, getSegsD],
            fun e => nonKey_err_iff (.typeError p "object or array" (type_name (.int n))) rfl e⟩
      | float f =>
          exact ⟨by simp [getSegs, getSegsD], fun u => by simp [getSegs, getSegsD],
            fun e => nonKey_err_iff (.typeError p "object or array" (type_name (.float f))) rfl e⟩
      | str t =>
          exact ⟨by simp [getSegs, getSegsD], fun u => by simp [getSegs, getSegsD],
            fun e => nonKey_err_iff (.typeError p "object or array" (type_name (.str t))) rfl e⟩

theorem containsSegs_vs_getSegsD (p : String) :
    ∀ (segs : List String) (v : Value),
      (containsSegs p v segs = .ok false ↔ getSegsD p v segs = .ok none)
    ∧ (containsSegs p v segs = .ok true ↔ ∃ u, getSegsD p v segs = .ok (some u))
    ∧ (∀ e, containsSegs p v segs = .error e ↔ getSegsD p v segs = .error e) := by
  intro segs
  induction segs with
  | nil =>
      intro v
      exact ⟨by simp [containsSegs, getSegsD], by simp [containsSegs, getSegsD],
        fun e => by simp [containsSegs, getSegsD]⟩
  | cons seg rest ih =>
      intro v
      cases v with
      | obj kvs =>
          cases hget : objGet kvs seg with
          | some v' =>
              simp only [containsSegs, getSegsD, hget]
              exact ih v'
          | none =>
              simp only [containsSegs, getSegsD, hget]
              exact ⟨by simp, by simp, fun e => by simp⟩
      | arr xs =>
          simp only [containsSegs, getSegsD]
          by_cases hidx : is_array_index seg = true
          · simp only [hidx, if_true]
            cases hpi : parse_array_index seg with
            | error e0 =>
                simp only [hpi]
                exact ⟨by simp, by simp, fun e => err_err_iff e0 e⟩
            | ok idx =>
                simp only [hpi]
                by_cases hlt : idx < xs.length
                · simp only [dif_pos hlt]
                  exact ih _
                · simp only [dif_neg hlt]
                  exact ⟨by simp, by simp, fun e => by simp⟩
          · simp only [hidx, Bool.false_eq_true, if_false]
            exact ⟨by simp, by simp, fun e => by simp⟩
      | null =>
          exact ⟨by simp [containsSegs, getSegsD], by simp [containsSegs, getSegsD],
            fun e => by simp [containsSegs, getSegsD]⟩
      | bool b =>
          exact ⟨by simp [containsSegs, getSegsD], by simp [containsSegs, getSegsD],
            fun e => by simp [containsSegs, getSegsD]⟩
      | int n =>
          exact ⟨by simp [containsSegs, getSegsD], by simp [containsSegs, getSegsD],
            fun e => by simp [containsSegs, getSegsD]⟩
      | float f =>
          exact ⟨by simp [containsSegs, getSegsD], by simp [containsSegs, getSegsD],
            fun e => by simp [containsSegs, getSegsD]⟩
      | str t =>
          exact ⟨by simp [containsSegs, getSegsD], by simp [containsSegs, getSegsD],
            fun e => by simp [containsSegs, getSegsD]⟩

/-- C6: `get_or_default` returns the fallback (modelled `.ok none`)
exactly in the cases where strict `get` raises `KeyError` (missing object
key, invalid or out-of-range array index); it agrees with strict `get` on
successes; and the exceptions it propagates are exactly the
non-`KeyError` exceptions strict `get` raises with the identical error —
in particular every shape-mismatch `TypeError` propagates through the
defaulted overload just as through the strict one, and the fallback is
never returned for one. -/
theorem getD_fallback_iff (t : Value) (p : String) :
    (get_by_dot_d t p = .ok none ↔ ∃ m, get_by_dot t p = .error (.keyError p m))
  ∧ (∀ u, get_by_dot_d t p = .ok (some u) ↔ get_by_dot t p = .ok u)
  ∧ (∀ e, get_by_dot_d t p = .error e ↔
        (get_by_dot t p = .error e ∧ e.isKeyErr = false))
  ∧ (∀ e, e.isTypeErr = true →
        (get_by_dot_d t p = .error e ↔ get_by_dot t p = .error e)) := by
  obtain ⟨h1, h2, h3⟩ := getSegsD_vs_getSegs p (split_dot_path p) t
  refine ⟨h1, h2, h3, ?_⟩
  intro e hte
  constructor
  · intro hd
    exact ((h3 e).mp hd).1
  · intro hs
    refine (h3 e).mpr ⟨hs, ?_⟩
    cases e with
    | typeError a b c => rfl
    | keyError a b => simp [ConfyError.isTypeErr] at hte
    | missingMandatory ks => simp [ConfyError.isTypeErr] at hte
    | stdOutOfRange a => simp [ConfyError.isTypeErr] at hte

/-- C7: on any path whose traversal never enters a scalar (i.e.
`contains` returns a boolean rather than throwing), `contains` returns
`false` exactly when `get_or_default` returns the distinguished fallback
(modelled `.ok none`). -/
theorem contains_false_iff_default (t : Value) (p : String) (b : Bool)
    (h : contains_dot t p = .ok b) :
    b = false ↔ get_by_dot_d t p = .ok none := by
  obtain ⟨h1, h2, _⟩ := containsSegs_vs_getSegsD p (split_dot_path p) t
  cases b with
  | false => exact ⟨fun _ => h1.mp h, fun _ => rfl⟩
  | true =>
      constructor
      · intro hb; exact absurd hb (by simp)
      · intro hd
        obtain ⟨u, hu⟩ := h2.mp h
        have hd' : getSegsD p t (split_dot_path p) = .ok none := hd
        rw [hd'] at hu
        exact absurd hu (by simp)

theorem collect_missing_eq_filter (data : Value) :
    ∀ l : List String,
      (∀ k ∈ l, ∀ e, contains_dot data k = .error e → e.isTypeErr = true) →
      collect_missing data l = .ok (l.filter (fun k => isMissingKey data k)) := by
  intro l
  induction l with
  | nil => intro _; rfl
  | cons key rest ih =>
      intro hsafe
      have ihr := ih fun k hk e he => hsafe k (List.mem_cons_of_mem _ hk) e he
      cases hc : contains_dot data key with
      | ok b =>
          simp only [collect_missing, hc, ihr, List.filter_cons]
          have hm : isMissingKey data key = !b := by simp [isMissingKey, hc]
          rw [hm]
      | error e =>
          have ht := hsafe key (List.mem_cons_self key rest) e hc
          cases e with
          | typeError a b c =>
              simp only [collect_missing, hc, ihr, List.filter_cons]
              have hm : isMissingKey data key = true := by simp [isMissingKey, hc]
              rw [hm]
              simp
          | keyError a b => simp [ConfyError.isTypeErr] at ht
          | missingMandatory ks => simp [ConfyError.isTypeErr] at ht
          | stdOutOfRange a => simp [ConfyError.isTypeErr] at ht

theorem validate_mandatory_eq (data : Value) (mandatory : List String)
    (hsafe : ∀ k ∈ mandatory, ∀ e, contains_dot data k = .error e → e.isTypeErr = true) :
    validate_mandatory data mandatory =
      (match mandatory.filter (fun k => isMissingKey data k) with
       | [] => .ok ()
       | missing => .error (.missingMandatory missing)) := by
  unfold validate_mandatory
  rw [collect_missing_eq_filter data mandatory hsafe]
  cases mandatory.filter (fun k => isMissingKey data k) with
  | nil => rfl
  | cons a as => rfl

/-- C5 (counterexample): the claim as stated fails on the code.  With
defaults `{a: [0]}` and mandatory paths `["zzz", "a.99999999999999999999"]`,
the path `zzz` is missing (`contains` returns false) and the second path
counts as not-missing under the claim's own definition (its check raises
neither `false` nor `TypeError`), so the claim predicts one
`MissingMandatoryConfig` carrying exactly `["zzz"]`.  Instead, the
`contains` check on the second path reaches the array with an all-digit
segment whose value exceeds `ULLONG_MAX`; `std::stoull` throws
`std::out_of_range`, `Config::validate_mandatory` (which catches only
`TypeError`, Config.cpp:274) propagates it, and `load` fails with that
exception, not with `MissingMandatoryConfig`. -/
theorem load_mandatory_counterexample :
    Config_load extNone
        { defaults := .obj [("a", .arr [.int 0])],
          mandatory := ["zzz", "a.99999999999999999999"] } none []
      = .error (.stdOutOfRange "99999999999999999999") ∧
    Config_load extNone
        { defaults := .obj [("a", .arr [.int 0])],
          mandatory := ["zzz", "a.99999999999999999999"] } none []
      ≠ .error (.missingMandatory ["zzz"]) := by
  constructor
  · rfl
  · intro h
    have h1 : Config_load extNone
        { defaults := .obj [("a", .arr [.int 0])],
          mandatory := ["zzz", "a.99999999999999999999"] } none []
      = .error (.stdOutOfRange "99999999999999999999") := rfl
    rw [h1] at h
    simp only [Except.error.injEq] at h
    simp at h

/-- C5 (amended): when the merged pipeline succeeds and every mandatory
`contains` check on the final tree either returns a boolean or throws
`TypeError` (no all-digit array segment overflowing `std::stoull`, which
would instead abort `load` with `std::out_of_range`), a nonempty set of
missing mandatory paths makes `Config::load` fail with one
`MissingMandatoryConfig` carrying exactly the complete ordered list of
every missing path — never truncated to the first — where a path counts
as missing when `contains` returns `false` or the check throws
`TypeError`. -/
theorem load_missing_mandatory_complete (ext : Ext) (opts : LoadOptions)
    (fd : Option Value) (env : List (String × String)) (t : Value)
    (hload : loadMerged ext opts fd env = .ok t)
    (hsafe : ∀ k ∈ opts.mandatory, ∀ e, contains_dot t k = .error e → e.isTypeErr = true)
    (hmiss : opts.mandatory.filter (fun k => isMissingKey t k) ≠ []) :
    Config_load ext opts fd env =
      .error (.missingMandatory (opts.mandatory.filter (fun k => isMissingKey t k))) := by
  simp only [Config_load, hload]
  rw [validate_mandatory_eq t opts.mandatory hsafe]
  cases hf : opts.mandatory.filter (fun k => isMissingKey t k) with
  | nil => exact absurd hf hmiss
  | cons a as => rfl

theorem load_missing_mandatory_complete_witness :
    loadMerged extNone { mandatory := ["a.b", "c.d"] } none [] = .ok (.obj []) ∧
    (["a.b", "c.d"].filter (fun k => isMissingKey (Value.obj []) k) ≠ []) ∧
    Config_load extNone { mandatory := ["a.b", "c.d"] } none [] =
      .error (.missingMandatory
        (["a.b", "c.d"].filter (fun k => isMissingKey (Value.obj []) k))) ∧
    Config_load extNone { mandatory := ["a.b", "c.d"] } none [] =
      .error (.missingMandatory ["a.b", "c.d"]) :=
  ⟨rfl, by decide,
    load_missing_mandatory_complete extNone _ none [] (.obj []) rfl
      (by
        intro k hk e he
        have hc : contains_dot (Value.obj []) k = .ok false := by
          cases hk with
          | head => rfl
          | tail _ hk2 =>
              cases hk2 with
              | head => rfl
              | tail _ hk3 => cases hk3
        rw [hc] at he
        exact absurd he (by simp))
      (by decide), rfl⟩

theorem contains_false_iff_default_witness :
    contains_dot (.obj []) "x" = .ok false ∧
    (false = false ↔ get_by_dot_d (.obj []) "x" = .ok none) :=
  ⟨rfl, contains_false_iff_default (.obj []) "x" false rfl⟩

theorem parse_value_int_overflow_witness :
    int_pattern "99999999999999999999".data = true ∧
    fitsInt64 (strToInt "99999999999999999999".data) = false ∧
    parse_value extNone "99999999999999999999" = .str "99999999999999999999" :=
  ⟨by decide, by decide,
    parse_value_int_overflow extNone "99999999999999999999" (by decide) (by decide)⟩

end Confy
